import Mathlib

/-!
Shallow embedding of the SIGIL template engine (src/src/template-engine.ts and
the template parser in src/unnamed/part_018) for verifying the specification
claims.  Strings are modelled as lists of characters; the JavaScript
`Math.random()` source is modelled as a stream `g : Nat → ℚ` of draws in
`[0, 1)` together with a running index that every random-consuming operation
threads through, so that one JS `Math.random()` call corresponds to reading
`g k` and advancing the index to `k + 1`.
-/

namespace Sigil

/-- Strings are modelled as lists of characters (JS strings are indexed
sequences of code units; all inputs relevant to the claims are ASCII). -/
abbrev Str := List Char

/-- JS whitespace class `\s` restricted to the ASCII characters it contains. -/
def isSpaceJS (c : Char) : Bool :=
  c == ' ' || c == '\t' || c == '\n' || c == '\r' || c == '\x0b' || c == '\x0c'

/-- JS `String.prototype.trim`. -/
def trimStr (s : Str) : Str :=
  ((s.dropWhile isSpaceJS).reverse.dropWhile isSpaceJS).reverse

/-- Drop trailing whitespace only. -/
def dropTrailingWs (s : Str) : Str :=
  (s.reverse.dropWhile isSpaceJS).reverse

/-- JS `String.prototype.toLowerCase` (ASCII range). -/
def toLowerStr (s : Str) : Str := s.map Char.toLower

/-- The character class `[\d.]` of the weight-suffix regexes. -/
def isDigitDot (c : Char) : Bool := c.isDigit || c == '.'

/-- The `\w` class of the indefinite-article regex: `[A-Za-z0-9_]`. -/
def isWordChar (c : Char) : Bool := c.isAlphanum || c == '_'

/-- JS `hay.includes(needle)`: contiguous-substring test. -/
def strIncludes (hay needle : Str) : Bool :=
  hay.tails.any (fun t => needle.isPrefixOf t)

/-- Digit-string to number, `"" ↦ 0` (matching JS `Number("")`). -/
def digitsToNat (s : Str) : Nat :=
  s.foldl (fun a c => a * 10 + (c.toNat - '0'.toNat)) 0

/-- Decimal representation of a natural number. -/
def natToStr (n : Nat) : Str := Nat.toDigits 10 n

/-- Decimal representation of an integer (JS `Number.prototype.toString`). -/
def intToStr (i : Int) : Str :=
  if i < 0 then '-' :: natToStr i.natAbs else natToStr i.toNat

/-- JS `String.prototype.split(sep)` for a single-character separator. -/
def splitOnChar (sep : Char) : Str → List Str
  | [] => [[]]
  | c :: cs =>
    if c = sep then [] :: splitOnChar sep cs
    else
      match splitOnChar sep cs with
      | s :: rest => (c :: s) :: rest
      | [] => [[c]]

/-- JS `parseFloat` on a string drawn from the class `[\d.]+` (digits, then an
optional dot and fractional digits; parsing stops at a second dot; the string
`"."` alone, which JS turns into `NaN`, is modelled as `0`). -/
def parseFloatQ (s : Str) : ℚ :=
  let ip := s.takeWhile Char.isDigit
  match s.drop ip.length with
  | '.' :: r =>
    let fp := r.takeWhile Char.isDigit
    if ip = [] ∧ fp = [] then 0
    else (digitsToNat ip : ℚ) + (digitsToNat fp : ℚ) / ((10 : ℚ) ^ fp.length)
  | _ => if ip = [] then 0 else (digitsToNat ip : ℚ)

/-- Decompose an item at the weight suffix: `some (pre, ds)` exactly when the
item ends in a caret followed by a nonempty run of digit-or-dot characters,
`pre` being everything before that last caret (the common core of the two
weight regexes `^(.+?)\s*\^([\d.]+)$` and `/ \^[\d.]+$/`). -/
def weightSplit (item : Str) : Option (Str × Str) :=
  let rev := item.reverse
  let dsRev := rev.takeWhile (fun c => c != '^')
  match rev.drop dsRev.length with
  | '^' :: preRev =>
    let ds := dsRev.reverse
    if ds ≠ [] ∧ ds.all isDigitDot then some (preRev.reverse, ds) else none
  | _ => none

/-- Whether the lazy group `(.+?)` of `^(.+?)\s*\^([\d.]+)$` can cover the
prefix before the caret: the `.` metacharacter does not match newlines, so the
value region (the prefix with its trailing whitespace removed, or its first
character when the prefix is all whitespace) must be newline-free. -/
def dotMatchable (pre : Str) : Bool :=
  match pre with
  | [] => false
  | c :: _ =>
    let core := dropTrailingWs pre
    if core = [] then c != '\n' else !(core.contains '\n')

/-- `parseWeightedList`, per item: `"sword ^2" ↦ ("sword", 2)`, no valid
suffix means weight `1` (template-engine.ts, `parseWeightedList`). -/
def parseWeightedItem (item : Str) : Str × ℚ :=
  match weightSplit item with
  | some (pre, ds) =>
    if pre ≠ [] ∧ dotMatchable pre then (trimStr pre, parseFloatQ ds)
    else (item, 1)
  | none => (item, 1)

/-- `parseWeightedList` (template-engine.ts lines 34–48). -/
def parseWeightedList (items : List Str) : List (Str × ℚ) :=
  items.map parseWeightedItem

/-- The subtraction walk of `selectWeighted`: subtract each weight from the
running remainder, returning the first entry whose subtraction makes the
remainder `≤ 0`; `none` when the list is exhausted. -/
def swGo : List (Str × ℚ) → ℚ → Option Str
  | [], _ => none
  | it :: rest, random =>
    let random := random - it.2
    if random ≤ 0 then some it.1 else swGo rest random

/-- `items.reduce((sum, item) => sum + item.weight, 0)`. -/
def totalWeight (items : List (Str × ℚ)) : ℚ :=
  items.foldl (fun s it => s + it.2) 0

/-- `selectWeighted` (template-engine.ts lines 53–66); `r` is the
`Math.random()` draw, so the initial remainder is `r * totalWeight`.  The
final line `items[items.length - 1]?.value || ''` yields the last value, or
the empty string for an empty list. -/
def selectWeighted (items : List (Str × ℚ)) (r : ℚ) : Str :=
  match swGo items (r * totalWeight items) with
  | some v => v
  | none =>
    match items.getLast? with
    | some it => it.1
    | none => []

/-- The exclusion filter's weight stripper `item.replace(/ \^[\d.]+$/, '')`:
remove a single space, caret and digit-dot run from the end when present. -/
def cleanWeight (item : Str) : Str :=
  match weightSplit item with
  | some (pre, _) => if pre.getLast? = some ' ' then pre.dropLast else item
  | none => item

/-- Uppercase first character, lowercase the rest (`capitalize`). -/
def capStr : Str → Str
  | [] => []
  | c :: rest => c.toUpper :: rest.map Char.toLower

/-- Lowercase vowels for the `[aeiou]y$` test of `pluralForm`. -/
def isLowerVowel (c : Char) : Bool :=
  c == 'a' || c == 'e' || c == 'i' || c == 'o' || c == 'u'

/-- Vowels of the indefinite-article regex `^[aeiouAEIOU]`. -/
def isVowel (c : Char) : Bool :=
  isLowerVowel c || c == 'A' || c == 'E' || c == 'I' || c == 'O' || c == 'U'

/-- `suf.isSuffixOf l` as the model of JS `l.endsWith(suf)`. -/
def endsWithStr (l suf : Str) : Bool := suf.isSuffixOf l

/-- The `/[aeiou]y$/` test of `pluralForm`. -/
def vowelY (t : Str) : Bool :=
  match t.reverse with
  | 'y' :: p :: _ => isLowerVowel p
  | _ => false

/-- `pluralForm` branch of `applyModifier` (template-engine.ts lines 87–98). -/
def pluralForm (t : Str) : Str :=
  if endsWithStr t ['s'] || endsWithStr t ['s', 'h'] || endsWithStr t ['c', 'h']
      || endsWithStr t ['x'] || endsWithStr t ['z'] then
    t ++ ['e', 's']
  else if endsWithStr t ['y'] && !vowelY t then
    t.dropLast ++ ['i', 'e', 's']
  else if endsWithStr t ['f'] then
    t.dropLast ++ ['v', 'e', 's']
  else if endsWithStr t ['f', 'e'] then
    t.dropLast.dropLast ++ ['v', 'e', 's']
  else
    t ++ ['s']

/-- `applyModifier` (template-engine.ts lines 81–102); unknown modifier names
(including `markov`, which the AST evaluator never special-cases) fall through
to the identity. -/
def applyModifier (text : Str) (modifier : Str) : Str :=
  if modifier = "capitalize".toList then capStr text
  else if modifier = "lowercase".toList then toLowerStr text
  else if modifier = "pluralForm".toList then pluralForm text
  else text

/-- `getIndefiniteArticle` (template-engine.ts lines 107–110). -/
def getIndefiniteArticle (word : Str) : Str :=
  match word with
  | c :: _ => if isVowel c then ['a', 'n'] else ['a']
  | [] => ['a']

/-- One left-to-right pass of the global replace
`text.replace(/\{a\}\s+(\w+)/g, ...)`, fueled by the input length (each step
consumes at least one character, so the fuel never runs out when initialised
with the length). -/
def processIAGo : Nat → Str → Str
  | 0, s => s
  | fuel + 1, s =>
    match s with
    | '{' :: 'a' :: '}' :: rest =>
      let ws := rest.takeWhile isSpaceJS
      let afterWs := rest.drop ws.length
      let word := afterWs.takeWhile isWordChar
      if ws ≠ [] ∧ word ≠ [] then
        getIndefiniteArticle word ++ ' ' :: word ++ processIAGo fuel (afterWs.drop word.length)
      else
        '{' :: processIAGo fuel ('a' :: '}' :: rest)
    | c :: rest => c :: processIAGo fuel rest
    | [] => []

/-- `processIndefiniteArticles` (template-engine.ts lines 342–347). -/
def processIndefiniteArticles (s : Str) : Str := processIAGo s.length s

/-- The loaded YAML data: nested string-keyed mappings with arrays of raw
strings at the leaves (yaml-loader's `SigilData`).  `leaf` is a scalar
string reached by indexing an array. -/
inductive SData where
  | leaf (s : Str)
  | arr (items : List Str)
  | obj (fields : List (Str × SData))

/-- First-match association lookup, the model of JS object property access. -/
def objLookup : List (Str × SData) → Str → Option SData
  | [], _ => none
  | (k, v) :: rest, key => if k = key then some v else objLookup rest key

/-- JS array access by string key: only a canonical decimal index in range
yields an element. -/
def arrLookup (items : List Str) (key : Str) : Option SData :=
  if key ≠ [] ∧ key.all Char.isDigit ∧ natToStr (digitsToNat key) = key
      ∧ digitsToNat key < items.length then
    (items.get? (digitsToNat key)).map SData.leaf
  else none

/-- One step of `getNestedValue`'s reduce:
`current && current[key] !== undefined ? current[key] : undefined`. -/
def nestedStep : Option SData → Str → Option SData
  | some (.obj fields), key => objLookup fields key
  | some (.arr items), key => arrLookup items key
  | _, _ => none

/-- `getNestedValue` (template-engine.ts lines 72–76). -/
def getNestedValue (lists : SData) (path : Str) : Option SData :=
  (splitOnChar '.' path).foldl nestedStep (some lists)

/-- A table reference's repetition clause: a fixed count (`*3`), a range
(`*{1-3}`), or a malformed braced range (single segment) whose `max` is `NaN`
in JS, making the evaluator's iteration count `NaN` and the loop run zero
times. -/
inductive RepSpec where
  | num (n : Nat)
  | range (mn mx : Nat)
  | broken

/-- The parser's `TemplateNode` union (template-parser, part_018 lines
234–250).  `modifiers = []` plays the role of the absent `modifiers` field. -/
inductive TemplateNode where
  | text (value : Str)
  | and (nodes : List TemplateNode)
  | or (nodes : List TemplateNode)
  | table (tablePath : Str) (modifiers : List Str) (isOptional : Bool)
      (exclusions : List Str) (repetition : RepSpec)
  | number_range (mn mx : Nat)
  | group (node : TemplateNode)
  | indefinite_article
  | mixed (nodes : List TemplateNode)

/-- Scanner of `splitTopLevel`: track bracket depth, cut at top-level
separators (template-parser lines 323–337). -/
def splitTopGo (sep : Char) : Str → Int → Str → List Str
  | [], _, cur => [cur.reverse]
  | c :: cs, depth, cur =>
    let d1 := if c = '{' ∨ c = '[' then depth + 1 else depth
    let d2 := if c = '}' ∨ c = ']' then d1 - 1 else d1
    if c = sep ∧ d2 = 0 then cur.reverse :: splitTopGo sep cs d2 []
    else splitTopGo sep cs d2 (c :: cur)

/-- `splitTopLevel`: split at top level, trim each part, drop empties. -/
def splitTopLevel (s : Str) (sep : Char) : List Str :=
  ((splitTopGo sep s 0 []).map trimStr).filter (· ≠ [])

/-- The control characters excluded from the core path group `[^!*?^]+?`. -/
def isSpecial (c : Char) : Bool := c == '!' || c == '*' || c == '?' || c == '^'

/-- The optional `(?:\^(\d+))?` of the table-reference regex: if a caret is
present it must be followed by digits (the capture is never used), otherwise
the whole regex fails. -/
def stepWeight (rem : Str) : Option Str :=
  match rem with
  | '^' :: r =>
    let ds := r.takeWhile Char.isDigit
    if ds = [] then none else some (r.drop ds.length)
  | _ => some rem

/-- The optional `(?:!([^*?]+))?`: a bang must be followed by a nonempty run
of non-`*`/`?` characters (which may itself contain further bangs). -/
def stepExcl (rem : Str) : Option (Option Str × Str) :=
  match rem with
  | '!' :: r =>
    let cap := r.takeWhile (fun c => c != '*' && c != '?')
    if cap = [] then none else some (some cap, r.drop cap.length)
  | _ => some (none, rem)

/-- The optional `(?:\*(\{[\d-]+\}|\d+))?`: a star followed by either a braced
digit-dash run or plain digits. -/
def stepRep (rem : Str) : Option (Option Str × Str) :=
  match rem with
  | '*' :: '{' :: r =>
    let run := r.takeWhile (fun c => c.isDigit || c == '-')
    (match r.drop run.length with
     | '}' :: rest => if run = [] then none else some (some ('{' :: run ++ ['}']), rest)
     | _ => none)
  | '*' :: r =>
    let ds := r.takeWhile Char.isDigit
    if ds = [] then none else some (some ds, r.drop ds.length)
  | _ => some (none, rem)

/-- The trailing `(\?)?$`: optionally one question mark, then the end. -/
def stepOpt (rem : Str) : Option Bool :=
  match rem with
  | [] => some false
  | ['?'] => some true
  | _ => none

/-- The anchored match `^([^!*?^]+?)(?:\^(\d+))?(?:!([^*?]+))?`
`(?:\*(\{[\d-]+\}|\d+))?(\?)?$` of `parseTableReference`; the lazy core group
necessarily extends exactly to the first control character.  Returns the core
path, the exclusion capture, the raw repetition capture, and the optional
flag; `none` when the regex does not match. -/
def coreMatchFn (content : Str) : Option (Str × Option Str × Option Str × Bool) := do
  let core := content.takeWhile (fun c => !isSpecial c)
  if core = [] then none
  else
    let rem := content.drop core.length
    let rem ← stepWeight rem
    let (excl, rem) ← stepExcl rem
    let (rep, rem) ← stepRep rem
    let opt ← stepOpt rem
    some (core, excl, rep, opt)

/-- The four modifier names peeled off dotted paths. -/
def knownModifiers : List Str :=
  ["capitalize".toList, "lowercase".toList, "pluralForm".toList, "markov".toList]

/-- The modifier-peeling loop of `parseTableReference`: pop known modifier
names off the end of the path segments while more than one segment remains,
accumulating them in pop order.  Fueled by the segment count. -/
def peelModsGo : Nat → List Str → List Str → List Str × List Str
  | 0, parts, acc => (parts, acc)
  | f + 1, parts, acc =>
    match parts.getLast? with
    | some last =>
      if parts.length > 1 ∧ knownModifiers.contains last then
        peelModsGo f parts.dropLast (acc ++ [last])
      else (parts, acc)
    | none => (parts, acc)

/-- Interpret a raw repetition capture (`"3"` or `"{1-3}"`): braced ranges
take the first two dash-separated segments as min and max (`Number("") = 0`);
a braced range with fewer than two segments leaves `max` undefined, i.e.
`NaN`. -/
def parseRepRaw (raw : Str) : RepSpec :=
  match raw with
  | '{' :: _ =>
    let inner := (raw.drop 1).dropLast
    (match splitOnChar '-' inner with
     | a :: b :: _ => .range (digitsToNat a) (digitsToNat b)
     | _ => .broken)
  | _ => .num (digitsToNat raw)

/-- `parseTableReference` (template-parser lines 500–560). -/
def parseTableReference (content : Str) (trailingModifiers : Str) : TemplateNode :=
  match coreMatchFn content with
  | none =>
    .table content [] (trailingModifiers.contains '?') [] (.num 1)
  | some (core, excl, rep, opt) =>
    let parts0 := splitOnChar '.' core
    let (parts, acc) := peelModsGo parts0.length parts0 []
    let mods := acc.reverse
    let tablePath := List.intercalate ['.'] parts
    let exclusions := (excl.elim [] (fun e => (splitOnChar '!' e).filter (· ≠ [])))
    let repetition := (rep.elim (RepSpec.num 1) parseRepRaw)
    .table tablePath mods (opt || trailingModifiers.contains '?') exclusions repetition

/-- The number-range pattern `^(\d+)-(\d+)$`. -/
def numRange (s : Str) : Option (Nat × Nat) :=
  let d1 := s.takeWhile Char.isDigit
  match s.drop d1.length with
  | '-' :: r2 =>
    let d2 := r2.takeWhile Char.isDigit
    if d1 ≠ [] ∧ d2 ≠ [] ∧ r2.drop d2.length = [] then
      some (digitsToNat d1, digitsToNat d2)
    else none
  | _ => none

/-- `parseTemplateExpression` (template-parser lines 263–320), fueled by the
input length plus one: every recursive call is on a strictly shorter string,
so the fuel never runs out when initialised that way. -/
def parseTemplateExpression : Nat → Str → TemplateNode
  | 0, input => .text input
  | f + 1, input =>
    let str := trimStr input
    let str :=
      if str.head? = some '{' ∧ str.getLast? = some '}' then (str.drop 1).dropLast else str
    let andParts := splitTopLevel str '&'
    if andParts.length > 1 then .and (andParts.map (parseTemplateExpression f))
    else
      let orParts := splitTopLevel str '|'
      if orParts.length > 1 then .or (orParts.map (parseTemplateExpression f))
      else if str.head? = some '[' ∧ str.contains ']' then
        let cb := (str.takeWhile (fun c => c != ']')).length
        parseTableReference ((str.take cb).drop 1) (str.drop (cb + 1))
      else if str.head? = some '(' ∧ str.getLast? = some ')' then
        .group (parseTemplateExpression f (trimStr ((str.drop 1).dropLast)))
      else if str.head? = some '{' ∧ str.getLast? = some '}' then
        parseTemplateExpression f ((str.drop 1).dropLast)
      else
        match numRange str with
        | some (mn, mx) => .number_range mn mx
        | none => if str = ['a'] then .indefinite_article else .text str

/-- The depth scan of `findBalancedPattern` starting just after the opening
character with depth 1: returns the content up to the matching close and the
remainder after it, or `none` when the brackets never balance. -/
def balSplit (oc cc : Char) : Str → Int → Option (Str × Str)
  | [], _ => none
  | c :: cs, d =>
    if c = cc then
      if d - 1 = 0 then some ([], cs)
      else (balSplit oc cc cs (d - 1)).map (fun p => (c :: p.1, p.2))
    else
      (balSplit oc cc cs (if c = oc then d + 1 else d)).map (fun p => (c :: p.1, p.2))

/-- `findBalancedPattern` (template-parser lines 445–476) relative to a
suffix of the template: `some (before, content, after)` where `before` is the
text preceding the first opening character. -/
def findBalanced (oc cc : Char) (s : Str) : Option (Str × Str × Str) :=
  let before := s.takeWhile (fun c => c != oc)
  match s.drop before.length with
  | [] => none
  | _ :: tail => (balSplit oc cc tail 1).map (fun p => (before, p.1, p.2))

/-- A found sigil region: text before it, its bracket-free content, the rest
of the template after it, and whether it was a `[...]` (table) region. -/
structure SigilPat where
  before : Str
  content : Str
  after : Str
  isTable : Bool

/-- `findNextSigilPattern` (template-parser lines 412–440): the table match
wins unless an inline match starts strictly earlier. -/
def findNextSigilPattern (s : Str) : Option SigilPat :=
  match findBalanced '[' ']' s, findBalanced '{' '}' s with
  | none, none => none
  | some (b, c, a), none => some ⟨b, c, a, true⟩
  | none, some (b, c, a) => some ⟨b, c, a, false⟩
  | some (tb, tc, ta), some (ib, ic, ia) =>
    if ib.length < tb.length then some ⟨ib, ic, ia, false⟩ else some ⟨tb, tc, ta, true⟩

/-- `parseSigilPattern` (template-parser lines 481–492): table content goes to
`parseTableReference`, inline content is re-wrapped in braces and parsed as an
expression. -/
def parseSigilPat (p : SigilPat) : TemplateNode :=
  if p.isTable then parseTableReference p.content []
  else parseTemplateExpression (p.content.length + 3) ('{' :: p.content ++ ['}'])

/-- The scan loop of `parseCompleteTemplate`, fueled by the template length
(each found pattern consumes at least its two bracket characters). -/
def parseCompleteGo : Nat → Str → List TemplateNode
  | 0, s => if s = [] then [] else [.text s]
  | f + 1, s =>
    match findNextSigilPattern s with
    | none => if s = [] then [] else [.text s]
    | some p =>
      (if p.before ≠ [] then [TemplateNode.text p.before] else [])
        ++ (parseSigilPat p :: parseCompleteGo f p.after)

/-- `parseCompleteTemplate` (template-parser lines 349–399): a single node is
returned directly, anything else is wrapped in `mixed` (including the empty
scan of the empty template). -/
def parseCompleteTemplate (t : Str) : TemplateNode :=
  match parseCompleteGo t.length t with
  | [n] => n
  | ns => .mixed ns

/-- `selectFromTable` (template-engine.ts lines 315–340): look up the table,
filter out entries whose weight-stripped text case-insensitively contains an
exclusion substring, and weighted-select; missing/non-array tables and
filtered-empty lists yield the empty string without consuming a random
draw. -/
def selectFromTable (g : Nat → ℚ) (lists : SData) (tablePath : Str)
    (exclusions : List Str) (k : Nat) : Str × Nat :=
  match getNestedValue lists tablePath with
  | some (.arr list) =>
    let filteredList :=
      if exclusions.length > 0 then
        list.filter (fun item =>
          !(exclusions.any (fun exc =>
            strIncludes (toLowerStr (cleanWeight item)) (toLowerStr exc))))
      else list
    if filteredList = [] then ([], k)
    else (selectWeighted (parseWeightedList filteredList) (g k), k + 1)
  | _ => ([], k)

/-- The repetition loop of the evaluator's `table` case (template-engine.ts
lines 385–398): each iteration performs an independent selection; an empty
selection contributes nothing, a nonempty one is recursively processed by
`pt` and then passed through the modifier chain. -/
def tableLoop (g : Nat → ℚ) (lists : SData) (pt : Str → Nat → Str × Nat)
    (tablePath : Str) (mods : List Str) (exclusions : List Str) :
    Nat → Nat → List Str × Nat
  | 0, k => ([], k)
  | c + 1, k =>
    let (item, k1) := selectFromTable g lists tablePath exclusions k
    if item = [] then tableLoop g lists pt tablePath mods exclusions c k1
    else
      let (pi1, k2) := pt item k1
      let pi2 := mods.foldl applyModifier pi1
      let (rest, k3) := tableLoop g lists pt tablePath mods exclusions c k2
      (pi2 :: rest, k3)

/-- Resolve the repetition clause to a concrete iteration count
(template-engine.ts lines 376–382): ranges consume one draw; a `broken` range
makes the JS count `NaN`, which still consumes the draw and runs the loop
zero times. -/
def resolveCount (g : Nat → ℚ) (rep : RepSpec) (k : Nat) : Nat × Nat :=
  match rep with
  | .num n => (n, k)
  | .range mn mx => ((⌊g k * ((mx : ℚ) - (mn : ℚ) + 1)⌋ + (mn : Int)).toNat, k + 1)
  | .broken => (0, k + 1)

/-- The `table` case of `evaluateTemplateNode` minus the optional coin:
resolve the count, run the loop, join with a comma-space separator. -/
def evalTableCore (g : Nat → ℚ) (lists : SData) (pt : Str → Nat → Str × Nat)
    (tablePath : Str) (mods : List Str) (exclusions : List Str) (rep : RepSpec)
    (k : Nat) : Str × Nat :=
  let (count, k1) := resolveCount g rep k
  let (results, k2) := tableLoop g lists pt tablePath mods exclusions count k1
  (List.intercalate (", ".toList) results, k2)

/-- The full `table` case of `evaluateTemplateNode` (template-engine.ts lines
369–400): an optional table first flips a fair coin and returns the empty
string on the losing half. -/
def evalTableF (g : Nat → ℚ) (lists : SData) (pt : Str → Nat → Str × Nat)
    (tablePath : Str) (mods : List Str) (exclusions : List Str) (rep : RepSpec)
    (isOpt : Bool) (k : Nat) : Str × Nat :=
  if isOpt then
    if g k < 1 / 2 then ([], k + 1)
    else evalTableCore g lists pt tablePath mods exclusions rep (k + 1)
  else evalTableCore g lists pt tablePath mods exclusions rep k

/-- The `and` case's per-child copy `{ ...n, isOptional: false }`
(template-engine.ts line 421): a direct `table` child has its optional flag
forced off; every other node shape is left unchanged. -/
def forceReq : TemplateNode → TemplateNode
  | .table p m _ e r => .table p m false e r
  | n => n

/-- Forcing the optional flag does not change a node's size (used by the
termination argument of the evaluator). -/
theorem sizeOf_forceReq (n : TemplateNode) : sizeOf (forceReq n) = sizeOf n := by
  cases n <;> first
    | rfl
    | (rename_i p m o e r; cases o <;> rfl)

mutual

/-- `evaluateTemplateNode` (template-engine.ts lines 364–453), parameterized
by the recursive template processor `pt` (the engine's
`this.processTemplate` at the current depth). -/
def evalNodeF (g : Nat → ℚ) (lists : SData) (pt : Str → Nat → Str × Nat) :
    TemplateNode → Nat → Str × Nat
  | .text v, k => (v, k)
  | .table p m o e r, k => evalTableF g lists pt p m e r o k
  | .and ns, k =>
    let (rs, k1) := evalAndF g lists pt ns k
    (rs.flatten, k1)
  | .or ns, k =>
    let i := (⌊g k * (ns.length : ℚ)⌋).toNat
    if h : i < ns.length then evalNodeF g lists pt ns[i] (k + 1)
    else ([], k + 1)
  | .group n, k => evalNodeF g lists pt n k
  | .number_range mn mx, k =>
    (intToStr (⌊g k * ((mx : ℚ) - (mn : ℚ) + 1)⌋ + (mn : Int)), k + 1)
  | .indefinite_article, k => (['{', 'a', '}'], k)
  | .mixed ns, k =>
    let (rs, k1) := evalMixedF g lists pt ns k
    (rs.flatten, k1)
termination_by n _ => sizeOf n
decreasing_by
  all_goals simp_wf
  all_goals first
    | omega
    | exact Nat.lt_of_lt_of_le (List.sizeOf_lt_of_mem (List.getElem_mem h))
        (Nat.le_add_left _ _)

/-- The `mixed` case's child-by-child evaluation. -/
def evalMixedF (g : Nat → ℚ) (lists : SData) (pt : Str → Nat → Str × Nat) :
    List TemplateNode → Nat → List Str × Nat
  | [], k => ([], k)
  | n :: rest, k =>
    let (r1, k1) := evalNodeF g lists pt n k
    let (rs, k2) := evalMixedF g lists pt rest k1
    (r1 :: rs, k2)
termination_by ns _ => sizeOf ns
decreasing_by
  all_goals simp_wf
  all_goals omega

/-- The `and` case's child-by-child evaluation (template-engine.ts lines
418–426): a direct `table` child is evaluated with `isOptional` forced to
`false`; every other child shape is evaluated unchanged. -/
def evalAndF (g : Nat → ℚ) (lists : SData) (pt : Str → Nat → Str × Nat) :
    List TemplateNode → Nat → List Str × Nat
  | [], k => ([], k)
  | n :: rest, k =>
    let (r1, k1) := evalNodeF g lists pt (forceReq n) k
    let (rs, k2) := evalAndF g lists pt rest k1
    (r1 :: rs, k2)
termination_by ns _ => sizeOf ns
decreasing_by
  all_goals simp_wf
  all_goals first
    | omega
    | (have hx := sizeOf_forceReq n; omega)

end

/-- The quoted-literal test of `processTemplate` (template-engine.ts lines
166–173): the template starts and ends with the same quote character. -/
def isQuotedLit (t : Str) : Bool :=
  (t.head? == some '"' && t.getLast? == some '"')
    || (t.head? == some '\'' && t.getLast? == some '\'')

/-- `processTemplate` (template-engine.ts lines 160–197).  The fuel is
`maxDepth - depth`: fuel `0` is the `depth >= maxDepth` guard returning the
template unchanged; otherwise the quote check fires, and then the parsed
template is evaluated with recursive re-processing at one less fuel (the
incremented depth), followed by the indefinite-article pass. -/
def processTemplate (g : Nat → ℚ) (lists : SData) : Nat → Str → Nat → Str × Nat
  | 0, t, k => (t, k)
  | f + 1, t, k =>
    if isQuotedLit t then ((t.drop 1).dropLast, k)
    else
      let (r, k1) :=
        evalNodeF g lists (fun t2 k2 => processTemplate g lists f t2 k2)
          (parseCompleteTemplate t) k
      (processIndefiniteArticles r, k1)

/-- The engine's effective recursion ceiling `this.options.maxDepth || 10`:
the default (modelled as `0`, i.e. absent) and an explicit `0` are both
falsy and give `10`. -/
def effMaxDepth (m : Nat) : Nat := if m = 0 then 10 else m

/-- `SigilEngine.generate` (template-engine.ts lines 140–143): reset the
depth to zero and process; returns the produced string and the next unread
index of the random stream. -/
def generate (lists : SData) (maxDepth : Nat) (g : Nat → ℚ) (k : Nat)
    (t : Str) : Str × Nat :=
  processTemplate g lists (effMaxDepth maxDepth) t k

/-- A random stream is valid when every draw lies in `[0, 1)`, the contract
of `Math.random()`. -/
def ValidRand (g : Nat → ℚ) : Prop := ∀ i, 0 ≤ g i ∧ g i < 1

/-- The all-zeros stream, a valid random source used to instantiate
universally quantified results. -/
def gZero : Nat → ℚ := fun _ => 0

/-- Table store with `a = ["x"]` and `b = ["y"]`. -/
def storeAB : SData :=
  .obj [("a".toList, .arr ["x".toList]), ("b".toList, .arr ["y".toList])]

/-- Mutually referential table store `a = ["[b]"]`, `b = ["[a]"]`. -/
def storeCyc : SData :=
  .obj [("a".toList, .arr ["[b]".toList]), ("b".toList, .arr ["[a]".toList])]

/-- Table store whose single table holds the single value `"TEST"`. -/
def storeTEST : SData := .obj [("table".toList, .arr ["TEST".toList])]

/-- The empty table store. -/
def storeEmpty : SData := .obj []

/-- The template `"{[a]&[b]?}"`. -/
def tmplAndOpt : Str := '{' :: "[a]&[b]?".toList ++ ['}']

/-- The exclusion filter predicate used by `selectFromTable`. -/
def exclKeep (excl : List Str) (item : Str) : Bool :=
  !(excl.any (fun exc => strIncludes (toLowerStr (cleanWeight item)) (toLowerStr exc)))

/-- Specification-level log of a `table` node's repetition loop: one record
per iteration, pairing the raw selection with the processed-and-modified
output (the empty output standing in for skipped iterations), with the same
random-stream threading as the loop itself. -/
def tableIterLog (g : Nat → ℚ) (lists : SData) (pt : Str → Nat → Str × Nat)
    (tablePath : Str) (mods : List Str) (exclusions : List Str) :
    Nat → Nat → List (Str × Str) × Nat
  | 0, k => ([], k)
  | c + 1, k =>
    let (item, k1) := selectFromTable g lists tablePath exclusions k
    if item = [] then
      let (rest, k2) := tableIterLog g lists pt tablePath mods exclusions c k1
      ((item, []) :: rest, k2)
    else
      let (p1, k2) := pt item k1
      let p2 := mods.foldl applyModifier p1
      let (rest, k3) := tableIterLog g lists pt tablePath mods exclusions c k2
      ((item, p2) :: rest, k3)

/-- The all-zeros stream is a valid random source. -/
theorem gZero_valid : ValidRand gZero := fun _ => by
  constructor <;> norm_num [gZero]

/-- The effective recursion ceiling is never zero (`maxDepth || 10`). -/
theorem effMaxDepth_ne_zero (m : Nat) : effMaxDepth m ≠ 0 := by
  unfold effMaxDepth; split <;> omega

/-- Unfolding `processTemplate` on positive fuel for a quoted template. -/
theorem processTemplate_quoted (g : Nat → ℚ) (lists : SData) (f : Nat) (t : Str)
    (k : Nat) (h : isQuotedLit t = true) :
    processTemplate g lists (f + 1) t k = ((t.drop 1).dropLast, k) := by
  simp only [processTemplate, h, if_true]

/-- Unfolding `processTemplate` on positive fuel for an unquoted template. -/
theorem processTemplate_step (g : Nat → ℚ) (lists : SData) (f : Nat) (t : Str)
    (k : Nat) (h : isQuotedLit t = false) :
    processTemplate g lists (f + 1) t k =
      (processIndefiniteArticles
        (evalNodeF g lists (fun t2 k2 => processTemplate g lists f t2 k2)
          (parseCompleteTemplate t) k).1,
       (evalNodeF g lists (fun t2 k2 => processTemplate g lists f t2 k2)
          (parseCompleteTemplate t) k).2) := by
  simp only [processTemplate, h]
  rfl

/-- Claim C10: `generate("")` returns exactly the empty string: the empty
template is not treated as quoted, the full-template scan produces a `mixed`
node with zero children whose evaluation concatenates nothing, and the
indefinite-article pass leaves the empty string unchanged. -/
theorem generate_empty_template (lists : SData) (m : Nat) (g : Nat → ℚ) (k : Nat) :
    generate lists m g k [] = ([], k)
      ∧ isQuotedLit [] = false
      ∧ parseCompleteTemplate [] = .mixed []
      ∧ processIndefiniteArticles [] = [] := by
  refine ⟨?_, rfl, rfl, rfl⟩
  unfold generate
  obtain ⟨f, hf⟩ := Nat.exists_eq_succ_of_ne_zero (effMaxDepth_ne_zero m)
  have hf1 : effMaxDepth m = f + 1 := hf
  rw [hf1, processTemplate_step g lists f [] k rfl,
    show parseCompleteTemplate ([] : Str) = .mixed [] from rfl]
  simp [evalNodeF, evalMixedF, processIndefiniteArticles, processIAGo]

/-- Claim C9: a template consisting of a single double-quote character (and
likewise a single single-quote character) is treated as quote-wrapped —
`startsWith` and `endsWith` are tested independently — so it is stripped to
the empty string rather than passed through. -/
theorem single_quote_char_strips_empty (lists : SData) (m : Nat) (g : Nat → ℚ)
    (k : Nat) :
    generate lists m g k ['"'] = ([], k) ∧ generate lists m g k ['\''] = ([], k) := by
  obtain ⟨f, hf⟩ := Nat.exists_eq_succ_of_ne_zero (effMaxDepth_ne_zero m)
  have hf1 : effMaxDepth m = f + 1 := hf
  refine ⟨?_, ?_⟩
  · unfold generate
    rw [hf1, processTemplate_quoted g lists f ['"'] k rfl]
    rfl
  · unfold generate
    rw [hf1, processTemplate_quoted g lists f ['\''] k rfl]
    rfl

/-- Claim C4: a template wrapped in matching quotes is stripped of the quotes
and returned with the inner content completely unprocessed, for any inner
string with no embedded quote of the same kind. -/
theorem quoted_literal_invariance (lists : SData) (m : Nat) (g : Nat → ℚ)
    (k : Nat) (s : Str) :
    ('"' ∉ s → generate lists m g k ('"' :: s ++ ['"']) = (s, k))
      ∧ ('\'' ∉ s → generate lists m g k ('\'' :: s ++ ['\'']) = (s, k)) := by
  obtain ⟨f, hf⟩ := Nat.exists_eq_succ_of_ne_zero (effMaxDepth_ne_zero m)
  have hf1 : effMaxDepth m = f + 1 := hf
  constructor <;> intro _
  · have h1 : ('"' :: s ++ ['"']).getLast? = some '"' := by
      show (('"' :: s) ++ ['"']).getLast? = some '"'
      exact List.getLast?_concat _
    have hq : isQuotedLit ('"' :: s ++ ['"']) = true := by
      unfold isQuotedLit
      rw [h1]
      rfl
    unfold generate
    rw [hf1, processTemplate_quoted g lists f _ k hq]
    show ((s ++ ['"']).dropLast, k) = (s, k)
    rw [List.dropLast_concat]
  · have h1 : ('\'' :: s ++ ['\'']).getLast? = some '\'' := by
      show (('\'' :: s) ++ ['\'']).getLast? = some '\''
      exact List.getLast?_concat _
    have hq : isQuotedLit ('\'' :: s ++ ['\'']) = true := by
      unfold isQuotedLit
      rw [h1]
      rfl
    unfold generate
    rw [hf1, processTemplate_quoted g lists f _ k hq]
    show ((s ++ ['\'']).dropLast, k) = (s, k)
    rw [List.dropLast_concat]

/-- Claim C4 witness: the double-quoted and single-quoted wrappings of the
sigil-bearing string `"x[y"` come back with the quotes stripped and the
content untouched. -/
theorem quoted_literal_invariance_witness :
    generate storeEmpty 0 gZero 0 ('"' :: "x[y".toList ++ ['"']) = ("x[y".toList, 0)
      ∧ generate storeEmpty 0 gZero 0 ('\'' :: "x[y".toList ++ ['\'']) = ("x[y".toList, 0) :=
  ⟨(quoted_literal_invariance storeEmpty 0 gZero 0 "x[y".toList).1 (by decide),
   (quoted_literal_invariance storeEmpty 0 gZero 0 "x[y".toList).2 (by decide)⟩

/-- The balance scan fails when the closing character never occurs. -/
theorem balSplit_none (oc cc : Char) {s : Str} (h : cc ∉ s) (d : Int) :
    balSplit oc cc s d = none := by
  induction s generalizing d with
  | nil => rfl
  | cons c cs ih =>
    have hc : ¬(c = cc) := fun he => h (he ▸ List.mem_cons_self c cs)
    have hcs : cc ∉ cs := fun hm => h (List.mem_cons_of_mem c hm)
    simp [balSplit, hc, ih hcs]

/-- No opening character, no balanced pattern. -/
theorem findBalanced_none_noOpen (oc cc : Char) {s : Str} (h : oc ∉ s) :
    findBalanced oc cc s = none := by
  have ht : s.takeWhile (fun c => c != oc) = s :=
    List.takeWhile_eq_self_iff.mpr (fun c hc => by
      simp only [bne_iff_ne, ne_eq]
      exact fun he => h (he ▸ hc))
  simp only [findBalanced, ht, List.drop_length]

/-- No closing character, no balanced pattern. -/
theorem findBalanced_none_noClose (oc cc : Char) {s : Str} (h : cc ∉ s) :
    findBalanced oc cc s = none := by
  simp only [findBalanced]
  cases hd : s.drop (s.takeWhile (fun c => c != oc)).length with
  | nil => rfl
  | cons x tail =>
    have htail : cc ∉ tail := fun hm =>
      h (List.mem_of_mem_drop (hd ▸ List.mem_cons_of_mem x hm))
    simp [balSplit_none oc cc htail 1]

/-- When neither bracket pair matches, the scanner finds no sigil pattern. -/
theorem findNextSigilPattern_none {s : Str} (ht : findBalanced '[' ']' s = none)
    (hi : findBalanced '{' '}' s = none) : findNextSigilPattern s = none := by
  unfold findNextSigilPattern
  rw [ht, hi]

/-- A pattern-free template scans to a single text node (or nothing when
empty), at any fuel. -/
theorem parseCompleteGo_nopat {s : Str} (h : findNextSigilPattern s = none)
    (fuel : Nat) : parseCompleteGo fuel s = if s = [] then [] else [.text s] := by
  cases fuel with
  | zero => rfl
  | succ f =>
    unfold parseCompleteGo
    rw [h]

/-- A nonempty pattern-free template parses to a literal text node. -/
theorem parseCompleteTemplate_nopat {t : Str} (h : findNextSigilPattern t = none)
    (hne : t ≠ []) : parseCompleteTemplate t = .text t := by
  unfold parseCompleteTemplate
  rw [parseCompleteGo_nopat h, if_neg hne]

/-- The indefinite-article pass cannot fire without both braces present. -/
theorem processIAGo_nochange {s : Str} (hyp : '{' ∉ s ∨ '}' ∉ s) (fuel : Nat) :
    processIAGo fuel s = s := by
  induction fuel generalizing s with
  | zero => rfl
  | succ f ih =>
    unfold processIAGo
    split
    · rename_i rest
      exfalso
      rcases hyp with hl | hr
      · exact hl (by simp)
      · exact hr (by simp)
    · rename_i c rest hne
      have hrest : '{' ∉ rest ∨ '}' ∉ rest := by
        rcases hyp with hl | hr
        · exact Or.inl (fun hm => hl (List.mem_cons_of_mem c hm))
        · exact Or.inr (fun hm => hr (List.mem_cons_of_mem c hm))
      rw [ih hrest]
    · rfl

/-- `processIndefiniteArticles` is the identity on brace-free strings. -/
theorem processIndefiniteArticles_nochange {s : Str} (hyp : '{' ∉ s ∨ '}' ∉ s) :
    processIndefiniteArticles s = s :=
  processIAGo_nochange hyp s.length

/-- Claim C1: `generate` is a total function (the embedding terminates on
every input by construction, mirroring the engine's depth counter), and on
irrecoverable malformed input — here, any template in which a bracket pair
never completes, such as an unmatched `[` or `}` — the parser falls back to a
literal text node and the original text passes through unchanged. -/
theorem generate_malformed_passthrough (lists : SData) (m : Nat) (g : Nat → ℚ)
    (k : Nat) (t : Str) (h1 : '[' ∉ t ∨ ']' ∉ t) (h2 : '{' ∉ t ∨ '}' ∉ t)
    (hq : isQuotedLit t = false) :
    generate lists m g k t = (t, k) := by
  obtain ⟨f, hf⟩ := Nat.exists_eq_succ_of_ne_zero (effMaxDepth_ne_zero m)
  have hf1 : effMaxDepth m = f + 1 := hf
  have htab : findBalanced '[' ']' t = none :=
    h1.elim (findBalanced_none_noOpen '[' ']') (findBalanced_none_noClose '[' ']')
  have hinl : findBalanced '{' '}' t = none :=
    h2.elim (findBalanced_none_noOpen '{' '}') (findBalanced_none_noClose '{' '}')
  have hpat := findNextSigilPattern_none htab hinl
  unfold generate
  rw [hf1, processTemplate_step g lists f t k hq]
  by_cases ht : t = []
  · subst ht
    rw [show parseCompleteTemplate ([] : Str) = .mixed [] from rfl]
    simp [evalNodeF, evalMixedF, processIndefiniteArticles, processIAGo]
  · rw [parseCompleteTemplate_nopat hpat ht]
    simp only [evalNodeF]
    rw [processIndefiniteArticles_nochange h2]

/-- Claim C1 witness: the unmatched-bracket template `"[abc"` passes through
`generate` unchanged. -/
theorem generate_malformed_witness :
    generate storeEmpty 0 gZero 0 ("[abc".toList) = ("[abc".toList, 0) :=
  generate_malformed_passthrough storeEmpty 0 gZero 0 ("[abc".toList)
    (Or.inr (by decide)) (Or.inl (by decide)) (by decide)

/-- The subtraction walk only ever returns a value stored in the list. -/
theorem swGo_mem {items : List (Str × ℚ)} {r : ℚ} {v : Str}
    (h : swGo items r = some v) : v ∈ items.map Prod.fst := by
  induction items generalizing r with
  | nil => simp [swGo] at h
  | cons it rest ih =>
    unfold swGo at h
    dsimp only at h
    split_ifs at h with hle
    · simp at h
      simp [h]
    · exact List.mem_cons_of_mem _ (ih h)

/-- `selectWeighted` on a nonempty list returns one of the stored values. -/
theorem selectWeighted_mem {items : List (Str × ℚ)} (hne : items ≠ []) (r : ℚ) :
    selectWeighted items r ∈ items.map Prod.fst := by
  unfold selectWeighted
  cases hs : swGo items (r * totalWeight items) with
  | some v => exact swGo_mem hs
  | none =>
    cases hl : items.getLast? with
    | none => exact absurd (List.getLast?_eq_none_iff.mp hl) hne
    | some it =>
      exact List.mem_map_of_mem Prod.fst (List.mem_of_mem_getLast? hl)

/-- Summing all-zero weights leaves the accumulator unchanged. -/
theorem totalWeight_zero_aux {items : List (Str × ℚ)}
    (h : ∀ it ∈ items, it.2 = 0) :
    ∀ a : ℚ, items.foldl (fun s it => s + it.2) a = a := by
  induction items with
  | nil => intro a; rfl
  | cons it rest ih =>
    intro a
    have h0 : it.2 = 0 := h it (List.mem_cons_self it rest)
    have hrest : ∀ x ∈ rest, x.2 = 0 := fun x hx => h x (List.mem_cons_of_mem it hx)
    simp only [List.foldl_cons, h0, add_zero]
    exact ih hrest a

/-- Claim C5 counterexample: with a nonempty list whose weights all sum to
zero, `selectWeighted` returns the FIRST entry's value, not the last item
claimed by the specification — the first subtraction already leaves the
remainder at `0 ≤ 0`. -/
theorem selectWeighted_zero_total_counterexample :
    selectWeighted [("a".toList, 0), ("b".toList, 0)] 0 = "a".toList
      ∧ "a".toList ≠ "b".toList := by
  constructor
  · norm_num [selectWeighted, swGo, totalWeight]
  · decide

/-- Claim C5 (amended): `selectWeighted` multiplies one uniform draw by the
total weight and walks the list subtracting weights until the remainder is
`≤ 0`, returning that entry's value; the empty list yields the empty string;
a nonempty list with all weights zero stops at the first entry (the last-item
fallback line is reached only when the walk exhausts the list); and on any
nonempty list the result is one of the stored values — never an error and
never `undefined`. -/
theorem selectWeighted_total_behavior (items : List (Str × ℚ)) (r : ℚ) :
    (items = [] → selectWeighted items r = [])
      ∧ (∀ it, items.head? = some it → (∀ x ∈ items, x.2 = 0) →
          selectWeighted items r = it.1)
      ∧ (items ≠ [] → selectWeighted items r ∈ items.map Prod.fst) := by
  refine ⟨?_, ?_, fun hne => selectWeighted_mem hne r⟩
  · intro h
    subst h
    rfl
  · intro it hh h0
    cases items with
    | nil => simp at hh
    | cons a rest =>
      have ha : a = it := by simpa using hh
      subst ha
      have htw : totalWeight (a :: rest) = 0 := totalWeight_zero_aux h0 0
      have h2 : a.2 = 0 := h0 a (List.mem_cons_self a rest)
      have hsw : swGo (a :: rest) (r * totalWeight (a :: rest)) = some a.1 := by
        unfold swGo
        rw [htw, mul_zero, h2]
        norm_num
      unfold selectWeighted
      rw [hsw]

/-- Claim C5 witness: the amended behavior at concrete inputs — empty list
gives the empty string, an all-zero two-entry list gives the first value, and
the result is among the stored values. -/
theorem selectWeighted_total_behavior_witness :
    selectWeighted ([] : List (Str × ℚ)) (1 / 3) = []
      ∧ selectWeighted [("a".toList, 0), ("b".toList, 0)] (1 / 3) = "a".toList
      ∧ selectWeighted [("a".toList, 0), ("b".toList, 0)] (1 / 3)
          ∈ [("a".toList, (0 : ℚ)), ("b".toList, 0)].map Prod.fst :=
  ⟨(selectWeighted_total_behavior [] (1 / 3)).1 rfl,
   (selectWeighted_total_behavior [("a".toList, 0), ("b".toList, 0)] (1 / 3)).2.1
     ("a".toList, 0) rfl (by decide),
   (selectWeighted_total_behavior [("a".toList, 0), ("b".toList, 0)] (1 / 3)).2.2
     (by decide)⟩

/-- `selectFromTable` unfolded in the found-array case. -/
theorem selectFromTable_arr (g : Nat → ℚ) (lists : SData) (p : Str)
    (excl : List Str) (k : Nat) (items : List Str)
    (hv : getNestedValue lists p = some (.arr items)) :
    selectFromTable g lists p excl k =
      (let fl := if excl.length > 0 then items.filter (exclKeep excl) else items
       if fl = [] then ([], k)
       else (selectWeighted (parseWeightedList fl) (g k), k + 1)) := by
  unfold selectFromTable
  rw [hv]
  rfl

/-- `selectFromTable` contributes nothing when the path does not resolve to
an array. -/
theorem selectFromTable_missing (g : Nat → ℚ) (lists : SData) (p : Str)
    (excl : List Str) (k : Nat)
    (h : ∀ items, getNestedValue lists p ≠ some (.arr items)) :
    selectFromTable g lists p excl k = ([], k) := by
  unfold selectFromTable
  cases hv : getNestedValue lists p with
  | none => rfl
  | some val =>
    cases val with
    | leaf s => rfl
    | arr items => exact absurd hv (h items)
    | obj fields => rfl

/-- Claim C8: a selection made under an exclusion list is either the empty
string (missing table, non-array value, or filtering emptied the list) or
the parsed value of a stored item that passed the filter — an item whose
weight-stripped text case-insensitively contains an excluded substring can
never be selected, because such entries are removed before weighted
selection.  The final conjunct records the parse: `[table!substr]` yields a
table node carrying the exclusion `"substr"`. -/
theorem exclusion_filtering_sound (g : Nat → ℚ) (lists : SData) (p : Str)
    (excl : List Str) (k : Nat) :
    ((selectFromTable g lists p excl k).1 = []
      ∨ ∃ items item, getNestedValue lists p = some (.arr items) ∧ item ∈ items
          ∧ (selectFromTable g lists p excl k).1 = (parseWeightedItem item).1
          ∧ ∀ e ∈ excl,
              strIncludes (toLowerStr (cleanWeight item)) (toLowerStr e) = false)
      ∧ parseCompleteTemplate "[table!substr]".toList
          = .table "table".toList [] false ["substr".toList] (.num 1) := by
  refine ⟨?_, rfl⟩
  cases hv : getNestedValue lists p with
  | none =>
    left
    rw [selectFromTable_missing g lists p excl k (fun _ hx => by rw [hv] at hx; cases hx)]
  | some val =>
    cases val with
    | leaf s =>
      left
      rw [selectFromTable_missing g lists p excl k (fun _ hx => by rw [hv] at hx; cases hx)]
    | obj fields =>
      left
      rw [selectFromTable_missing g lists p excl k (fun _ hx => by rw [hv] at hx; cases hx)]
    | arr items =>
      rw [selectFromTable_arr g lists p excl k items hv]
      dsimp only
      by_cases he : (if excl.length > 0 then items.filter (exclKeep excl) else items) = []
      · rw [if_pos he]
        left
        rfl
      · rw [if_neg he]
        right
        have hne : parseWeightedList (if excl.length > 0 then items.filter (exclKeep excl) else items) ≠ [] := by
          simpa [parseWeightedList] using he
        have hmem := selectWeighted_mem hne (g k)
        rw [parseWeightedList, List.map_map] at hmem
        obtain ⟨item, hitem, heq⟩ := List.mem_map.mp hmem
        refine ⟨items, item, rfl, ?_, heq.symm, ?_⟩
        · by_cases h0 : excl.length > 0
          · rw [if_pos h0] at hitem
            exact (List.mem_filter.mp hitem).1
          · rwa [if_neg h0] at hitem
        · intro e he2
          by_cases h0 : excl.length > 0
          · rw [if_pos h0] at hitem
            have hkeep := (List.mem_filter.mp hitem).2
            have hany : excl.any
                (fun exc => strIncludes (toLowerStr (cleanWeight item)) (toLowerStr exc)) = false := by
              simpa [exclKeep] using hkeep
            simpa using (List.any_eq_false.mp hany) e he2
          · exfalso
            have : excl = [] := List.length_eq_zero.mp (by omega)
            subst this
            simp at he2

/-- The log has exactly one record per iteration. -/
theorem tableIterLog_length (g : Nat → ℚ) (lists : SData)
    (pt : Str → Nat → Str × Nat) (p : Str) (mods excl : List Str) :
    ∀ c k, (tableIterLog g lists pt p mods excl c k).1.length = c := by
  intro c
  induction c with
  | zero => intro k; rfl
  | succ c ih =>
    intro k
    unfold tableIterLog
    cases hsel : selectFromTable g lists p excl k with
    | mk item k1 =>
      by_cases hit : item = []
      · simp [hit, ih]
      · simp [hit, ih]

/-- The repetition loop keeps exactly the records of the log whose raw
selection is nonempty. -/
theorem tableLoop_eq_log (g : Nat → ℚ) (lists : SData)
    (pt : Str → Nat → Str × Nat) (p : Str) (mods excl : List Str) :
    ∀ c k, tableLoop g lists pt p mods excl c k
      = ((tableIterLog g lists pt p mods excl c k).1.filterMap
          (fun r => if r.1 = [] then none else some r.2),
         (tableIterLog g lists pt p mods excl c k).2) := by
  intro c
  induction c with
  | zero => intro k; rfl
  | succ c ih =>
    intro k
    unfold tableLoop tableIterLog
    cases hsel : selectFromTable g lists p excl k with
    | mk item k1 =>
      by_cases hit : item = []
      · simp [hit, ih]
      · simp [hit, ih]

/-- With no array at the path, every iteration of the loop contributes
nothing and leaves the random stream untouched. -/
theorem tableLoop_missing (g : Nat → ℚ) (lists : SData)
    (pt : Str → Nat → Str × Nat) (p : Str) (mods excl : List Str)
    (h : ∀ items, getNestedValue lists p ≠ some (.arr items)) :
    ∀ c k, tableLoop g lists pt p mods excl c k = ([], k) := by
  intro c
  induction c with
  | zero => intro k; rfl
  | succ c ih =>
    intro k
    unfold tableLoop
    rw [selectFromTable_missing g lists p excl k h]
    simpa using ih k

/-- Claim C6: evaluating a `table` node with a concrete repetition count `c`
performs `c` independent draws and joins with `", "` exactly the processed
results of the iterations whose raw selection was nonempty; an iteration
whose table is missing or not an array contributes nothing, and zero
iterations yield the empty string. -/
theorem table_iteration_filtering (g : Nat → ℚ) (lists : SData)
    (pt : Str → Nat → Str × Nat) (p : Str) (mods excl : List Str) (c k : Nat) :
    ((tableIterLog g lists pt p mods excl c k).1.length = c)
      ∧ (evalTableF g lists pt p mods excl (.num c) false k
          = (List.intercalate (", ".toList)
              ((tableIterLog g lists pt p mods excl c k).1.filterMap
                (fun r => if r.1 = [] then none else some r.2)),
             (tableIterLog g lists pt p mods excl c k).2))
      ∧ (c = 0 → evalTableF g lists pt p mods excl (.num c) false k = ([], k))
      ∧ ((∀ items, getNestedValue lists p ≠ some (.arr items)) →
          evalTableF g lists pt p mods excl (.num c) false k = ([], k)) := by
  have h1 : evalTableF g lists pt p mods excl (.num c) false k
      = (List.intercalate (", ".toList) (tableLoop g lists pt p mods excl c k).1,
         (tableLoop g lists pt p mods excl c k).2) := rfl
  refine ⟨tableIterLog_length g lists pt p mods excl c k, ?_, ?_, ?_⟩
  · rw [h1, tableLoop_eq_log g lists pt p mods excl c k]
  · intro hc
    subst hc
    rfl
  · intro h
    rw [h1, tableLoop_missing g lists pt p mods excl h c k]
    rfl

/-- Claim C6 witness: at a store with no tables, a two-iteration table node
logs two (empty) iterations, joins to the empty string, and the zero-count
and missing-table cases also produce the empty string. -/
theorem table_iteration_filtering_witness :
    ((tableIterLog gZero storeEmpty (fun s j => (s, j)) "t".toList [] [] 2 0).1.length = 2)
      ∧ evalTableF gZero storeEmpty (fun s j => (s, j)) "t".toList [] [] (.num 0) false 0
          = ([], 0)
      ∧ evalTableF gZero storeEmpty (fun s j => (s, j)) "t".toList [] [] (.num 2) false 0
          = ([], 0) :=
  ⟨(table_iteration_filtering gZero storeEmpty (fun s j => (s, j)) "t".toList [] [] 2 0).1,
   (table_iteration_filtering gZero storeEmpty (fun s j => (s, j)) "t".toList [] [] 0 0).2.2.1
     rfl,
   (table_iteration_filtering gZero storeEmpty (fun s j => (s, j)) "t".toList [] [] 2 0).2.2.2
     (fun _ hx => Option.noConfusion hx)⟩

/-- Text nodes evaluate to their value, leaving the random stream alone. -/
theorem evalNodeF_text (g : Nat → ℚ) (lists : SData) (pt : Str → Nat → Str × Nat)
    (v : Str) (k : Nat) : evalNodeF g lists pt (.text v) k = (v, k) := by
  simp [evalNodeF]

/-- `processTemplate` on positive fuel passes a pattern-free, unquoted
template through unchanged (shared backbone of the literal-fallback and
recursion-bound results). -/
theorem processTemplate_passthrough (g : Nat → ℚ) (lists : SData) (f k : Nat)
    (t : Str) (h1 : '[' ∉ t ∨ ']' ∉ t) (h2 : '{' ∉ t ∨ '}' ∉ t)
    (hq : isQuotedLit t = false) :
    processTemplate g lists (f + 1) t k = (t, k) := by
  have htab : findBalanced '[' ']' t = none :=
    h1.elim (findBalanced_none_noOpen '[' ']') (findBalanced_none_noClose '[' ']')
  have hinl : findBalanced '{' '}' t = none :=
    h2.elim (findBalanced_none_noOpen '{' '}') (findBalanced_none_noClose '{' '}')
  have hpat := findNextSigilPattern_none htab hinl
  rw [processTemplate_step g lists f t k hq]
  by_cases ht : t = []
  · subst ht
    rw [show parseCompleteTemplate ([] : Str) = .mixed [] from rfl]
    simp [evalNodeF, evalMixedF, processIndefiniteArticles, processIAGo]
  · rw [parseCompleteTemplate_nopat hpat ht, evalNodeF_text]
    rw [processIndefiniteArticles_nochange h2]

/-- A singleton list with unit weight is always selected when the draw is at
most `1`: the single subtraction already brings the remainder to `r - 1 ≤ 0`. -/
theorem selectWeighted_singleton (v : Str) (r : ℚ) (hr : r ≤ 1) :
    selectWeighted [(v, 1)] r = v := by
  have htw : totalWeight [(v, 1)] = 1 := by norm_num [totalWeight]
  have hsw : swGo [(v, 1)] (r * totalWeight [(v, 1)]) = some v := by
    unfold swGo
    rw [htw, mul_one]
    dsimp only
    rw [if_pos (by linarith)]
  unfold selectWeighted
  rw [hsw]

/-- Evaluating a one-shot table reference over a single-entry table:
select the entry (consuming one draw), recursively process it through `pt`,
then apply the modifier chain in stored order. -/
theorem evalTable_single (g : Nat → ℚ) (lists : SData) (pt : Str → Nat → Str × Nat)
    (p : Str) (mods : List Str) (v w : Str) (k k2 : Nat)
    (hl : getNestedValue lists p = some (.arr [v]))
    (hw : parseWeightedItem v = (v, 1))
    (hv : v ≠ [])
    (hr : g k ≤ 1)
    (hpt : pt v (k + 1) = (w, k2)) :
    evalTableCore g lists pt p mods [] (.num 1) k
      = (mods.foldl applyModifier w, k2) := by
  have hsel : selectFromTable g lists p [] k = (v, k + 1) := by
    have hsel1 : selectFromTable g lists p [] k
        = (selectWeighted (parseWeightedList [v]) (g k), k + 1) := by
      unfold selectFromTable
      rw [hl]
      rfl
    rw [hsel1, show parseWeightedList [v] = [(v, 1)] by simp [parseWeightedList, hw],
      selectWeighted_singleton v (g k) hr]
  have hloop : tableLoop g lists pt p mods [] 1 k
      = ([mods.foldl applyModifier w], k2) := by
    unfold tableLoop
    rw [hsel]
    dsimp only
    rw [if_neg hv, hpt]
    rfl
  show (List.intercalate (", ".toList) (tableLoop g lists pt p mods [] 1 k).1,
        (tableLoop g lists pt p mods [] 1 k).2)
      = (mods.foldl applyModifier w, k2)
  rw [hloop]
  simp [List.intercalate]

/-- Claim C7: modifiers written left-to-right in the template are applied
first-to-last: with `table = ["TEST"]`, the template
`"[table.lowercase.capitalize]"` always produces exactly `"Test"`; the
parser peels the two trailing modifier names and stores them in reading
order, and the evaluator folds them over the selected value in that order
(`lowercase` first, then `capitalize`). -/
theorem modifier_chain_order (g : Nat → ℚ) (k : Nat) (hg : ValidRand g) :
    generate storeTEST 0 g k "[table.lowercase.capitalize]".toList
        = ("Test".toList, k + 1)
      ∧ parseTableReference "table.lowercase.capitalize".toList []
          = .table "table".toList ["lowercase".toList, "capitalize".toList]
              false [] (.num 1)
      ∧ applyModifier (applyModifier "TEST".toList "lowercase".toList)
          "capitalize".toList = "Test".toList := by
  refine ⟨?_, rfl, rfl⟩
  have hr : g k ≤ 1 := le_of_lt (hg k).2
  have hpt : (fun t2 k2 => processTemplate g storeTEST 9 t2 k2) "TEST".toList (k + 1)
      = ("TEST".toList, k + 1) :=
    processTemplate_passthrough g storeTEST 8 (k + 1) "TEST".toList
      (Or.inl (by decide)) (Or.inl (by decide)) (by decide)
  have hcore := evalTable_single g storeTEST
    (fun t2 k2 => processTemplate g storeTEST 9 t2 k2) "table".toList
    ["lowercase".toList, "capitalize".toList] "TEST".toList "TEST".toList k (k + 1)
    rfl rfl (by decide) hr hpt
  have htab : evalTableF g storeTEST (fun t2 k2 => processTemplate g storeTEST 9 t2 k2)
      "table".toList ["lowercase".toList, "capitalize".toList] [] (.num 1) false k
      = ("Test".toList, k + 1) := by
    rw [show evalTableF g storeTEST (fun t2 k2 => processTemplate g storeTEST 9 t2 k2)
        "table".toList ["lowercase".toList, "capitalize".toList] [] (.num 1) false k
      = evalTableCore g storeTEST (fun t2 k2 => processTemplate g storeTEST 9 t2 k2)
        "table".toList ["lowercase".toList, "capitalize".toList] [] (.num 1) k from rfl]
    rw [hcore]
    rfl
  have hnode : evalNodeF g storeTEST (fun t2 k2 => processTemplate g storeTEST 9 t2 k2)
      (.table "table".toList ["lowercase".toList, "capitalize".toList] false []
        (.num 1)) k
      = ("Test".toList, k + 1) := by
    simp only [evalNodeF]
    exact htab
  unfold generate
  rw [show effMaxDepth 0 = 9 + 1 from rfl,
    processTemplate_step g storeTEST 9 "[table.lowercase.capitalize]".toList k rfl,
    show parseCompleteTemplate "[table.lowercase.capitalize]".toList
      = .table "table".toList ["lowercase".toList, "capitalize".toList] false []
          (.num 1) from rfl,
    hnode]
  rfl

/-- Claim C7 witness: the all-zeros stream is a valid random source, and
under it the modifier-chain template produces `"Test"`. -/
theorem modifier_chain_order_witness :
    ValidRand gZero
      ∧ generate storeTEST 0 gZero 0 "[table.lowercase.capitalize]".toList
          = ("Test".toList, 1) :=
  ⟨gZero_valid, (modifier_chain_order gZero 0 gZero_valid).1⟩

/-- Claim C2: under every outcome of the random source, `"{[a]&[b]?}"` over
`a = ["x"]`, `b = ["y"]` produces exactly `"xy"`: the parser builds an `and`
node whose second table child carries `isOptional = true`, and the `and`
evaluation forces the optional flag of every direct table child to `false`
before evaluating it (the final conjunct states the forcing in general),
while children of other shapes are evaluated unchanged. -/
theorem and_overrides_optional (g : Nat → ℚ) (k : Nat) (hg : ValidRand g) :
    generate storeAB 0 g k tmplAndOpt = ("xy".toList, k + 2)
      ∧ parseCompleteTemplate tmplAndOpt
          = .and [.table "a".toList [] false [] (.num 1),
                  .table "b".toList [] true [] (.num 1)]
      ∧ (∀ (lists2 : SData) (pt2 : Str → Nat → Str × Nat) (p2 : Str)
           (m2 e2 : List Str) (r2 : RepSpec) (j : Nat),
          evalAndF g lists2 pt2 [.table p2 m2 true e2 r2] j
            = evalAndF g lists2 pt2 [.table p2 m2 false e2 r2] j) := by
  refine ⟨?_, rfl, ?_⟩
  · have hr0 : g k ≤ 1 := le_of_lt (hg k).2
    have hr1 : g (k + 1) ≤ 1 := le_of_lt (hg (k + 1)).2
    have hptx : (fun t2 k2 => processTemplate g storeAB 9 t2 k2) "x".toList (k + 1)
        = ("x".toList, k + 1) :=
      processTemplate_passthrough g storeAB 8 (k + 1) "x".toList
        (Or.inl (by decide)) (Or.inl (by decide)) (by decide)
    have hpty : (fun t2 k2 => processTemplate g storeAB 9 t2 k2) "y".toList (k + 2)
        = ("y".toList, k + 2) :=
      processTemplate_passthrough g storeAB 8 (k + 2) "y".toList
        (Or.inl (by decide)) (Or.inl (by decide)) (by decide)
    have hcx := evalTable_single g storeAB
      (fun t2 k2 => processTemplate g storeAB 9 t2 k2) "a".toList [] "x".toList
      "x".toList k (k + 1) rfl rfl (by decide) hr0 hptx
    have hcy := evalTable_single g storeAB
      (fun t2 k2 => processTemplate g storeAB 9 t2 k2) "b".toList [] "y".toList
      "y".toList (k + 1) (k + 2) rfl rfl (by decide) hr1 hpty
    have hnx : evalNodeF g storeAB (fun t2 k2 => processTemplate g storeAB 9 t2 k2)
        (.table "a".toList [] false [] (.num 1)) k = ("x".toList, k + 1) := by
      simp only [evalNodeF]
      rw [show evalTableF g storeAB (fun t2 k2 => processTemplate g storeAB 9 t2 k2)
          "a".toList [] [] (.num 1) false k
        = evalTableCore g storeAB (fun t2 k2 => processTemplate g storeAB 9 t2 k2)
          "a".toList [] [] (.num 1) k from rfl, hcx]
      rfl
    have hny : evalNodeF g storeAB (fun t2 k2 => processTemplate g storeAB 9 t2 k2)
        (.table "b".toList [] false [] (.num 1)) (k + 1) = ("y".toList, k + 2) := by
      simp only [evalNodeF]
      rw [show evalTableF g storeAB (fun t2 k2 => processTemplate g storeAB 9 t2 k2)
          "b".toList [] [] (.num 1) false (k + 1)
        = evalTableCore g storeAB (fun t2 k2 => processTemplate g storeAB 9 t2 k2)
          "b".toList [] [] (.num 1) (k + 1) from rfl, hcy]
      rfl
    have hA : evalAndF g storeAB (fun t2 k2 => processTemplate g storeAB 9 t2 k2)
        [.table "a".toList [] false [] (.num 1),
         .table "b".toList [] true [] (.num 1)] k
        = (["x".toList, "y".toList], k + 2) := by
      simp only [evalAndF, forceReq]
      rw [hnx]
      dsimp only
      rw [hny]
    have hand : evalNodeF g storeAB (fun t2 k2 => processTemplate g storeAB 9 t2 k2)
        (.and [.table "a".toList [] false [] (.num 1),
               .table "b".toList [] true [] (.num 1)]) k
        = ("xy".toList, k + 2) := by
      simp only [evalNodeF]
      rw [hA]
      rfl
    unfold generate
    rw [show effMaxDepth 0 = 9 + 1 from rfl,
      processTemplate_step g storeAB 9 tmplAndOpt k rfl,
      show parseCompleteTemplate tmplAndOpt
        = .and [.table "a".toList [] false [] (.num 1),
                .table "b".toList [] true [] (.num 1)] from rfl,
      hand]
    rfl
  · intro lists2 pt2 p2 m2 e2 r2 j
    simp only [evalAndF, forceReq]

/-- Claim C2 witness: the all-zeros stream is valid and makes the template
produce `"xy"` after exactly two draws. -/
theorem and_overrides_optional_witness :
    ValidRand gZero ∧ generate storeAB 0 gZero 0 tmplAndOpt = ("xy".toList, 2) :=
  ⟨gZero_valid, (and_overrides_optional gZero 0 gZero_valid).1⟩

/-- Alternation of the two cyclic tables: at fuel `f` (the remaining depth
budget), processing `"[a]"` resolves through `f` selections and bottoms out
returning whichever raw template string is in flight when the depth guard
fires, consuming exactly one random draw per level. -/
theorem cycAux (g : Nat → ℚ) (hg : ValidRand g) :
    ∀ f k : Nat,
      processTemplate g storeCyc f "[a]".toList k
          = ((if f % 2 = 0 then "[a]".toList else "[b]".toList), k + f)
        ∧ processTemplate g storeCyc f "[b]".toList k
          = ((if f % 2 = 0 then "[b]".toList else "[a]".toList), k + f) := by
  intro f
  induction f with
  | zero => intro k; exact ⟨rfl, rfl⟩
  | succ f ih =>
    intro k
    have hr : g k ≤ 1 := le_of_lt (hg k).2
    constructor
    · have hpt : (fun t2 k2 => processTemplate g storeCyc f t2 k2) "[b]".toList (k + 1)
          = ((if f % 2 = 0 then "[b]".toList else "[a]".toList), k + 1 + f) := by
        have h := (ih (k + 1)).2
        simpa [Nat.add_assoc] using h
      have hcore := evalTable_single g storeCyc
        (fun t2 k2 => processTemplate g storeCyc f t2 k2) "a".toList []
        "[b]".toList ((if f % 2 = 0 then "[b]".toList else "[a]".toList))
        k (k + 1 + f) rfl rfl (by decide) hr hpt
      have hnode : evalNodeF g storeCyc (fun t2 k2 => processTemplate g storeCyc f t2 k2)
          (.table "a".toList [] false [] (.num 1)) k
          = ((if f % 2 = 0 then "[b]".toList else "[a]".toList), k + 1 + f) := by
        simp only [evalNodeF]
        rw [show evalTableF g storeCyc (fun t2 k2 => processTemplate g storeCyc f t2 k2)
            "a".toList [] [] (.num 1) false k
          = evalTableCore g storeCyc (fun t2 k2 => processTemplate g storeCyc f t2 k2)
            "a".toList [] [] (.num 1) k from rfl, hcore]
        rfl
      rw [processTemplate_step g storeCyc f "[a]".toList k rfl,
        show parseCompleteTemplate "[a]".toList
          = .table "a".toList [] false [] (.num 1) from rfl, hnode]
      rcases Nat.mod_two_eq_zero_or_one f with h2 | h2
      · have h3 : (f + 1) % 2 = 1 := by omega
        rw [h2, h3]
        norm_num
        constructor
        · rfl
        · omega
      · have h3 : (f + 1) % 2 = 0 := by omega
        rw [h2, h3]
        norm_num
        constructor
        · rfl
        · omega
    · have hpt : (fun t2 k2 => processTemplate g storeCyc f t2 k2) "[a]".toList (k + 1)
          = ((if f % 2 = 0 then "[a]".toList else "[b]".toList), k + 1 + f) := by
        have h := (ih (k + 1)).1
        simpa [Nat.add_assoc] using h
      have hcore := evalTable_single g storeCyc
        (fun t2 k2 => processTemplate g storeCyc f t2 k2) "b".toList []
        "[a]".toList ((if f % 2 = 0 then "[a]".toList else "[b]".toList))
        k (k + 1 + f) rfl rfl (by decide) hr hpt
      have hnode : evalNodeF g storeCyc (fun t2 k2 => processTemplate g storeCyc f t2 k2)
          (.table "b".toList [] false [] (.num 1)) k
          = ((if f % 2 = 0 then "[a]".toList else "[b]".toList), k + 1 + f) := by
        simp only [evalNodeF]
        rw [show evalTableF g storeCyc (fun t2 k2 => processTemplate g storeCyc f t2 k2)
            "b".toList [] [] (.num 1) false k
          = evalTableCore g storeCyc (fun t2 k2 => processTemplate g storeCyc f t2 k2)
            "b".toList [] [] (.num 1) k from rfl, hcore]
        rfl
      rw [processTemplate_step g storeCyc f "[b]".toList k rfl,
        show parseCompleteTemplate "[b]".toList
          = .table "b".toList [] false [] (.num 1) from rfl, hnode]
      rcases Nat.mod_two_eq_zero_or_one f with h2 | h2
      · have h3 : (f + 1) % 2 = 1 := by omega
        rw [h2, h3]
        norm_num
        constructor
        · rfl
        · omega
      · have h3 : (f + 1) % 2 = 0 := by omega
        rw [h2, h3]
        norm_num
        constructor
        · rfl
        · omega

/-- Claim C3: with the mutually referential tables `a = ["[b]"]` and
`b = ["[a]"]`, `generate("[a]")` terminates for every outcome of the random
source: each recursive re-parse of a selected value spends one unit of the
depth budget (default ceiling 10), and when the budget is exhausted the
in-flight step returns its input string unresolved — the overall result is
the raw, still-templated `"[a]"` after exactly ten draws, not an error. -/
theorem cycle_terminates_unresolved (g : Nat → ℚ) (k : Nat) (hg : ValidRand g) :
    generate storeCyc 0 g k "[a]".toList = ("[a]".toList, k + 10) := by
  have h := (cycAux g hg 10 k).1
  unfold generate
  rw [show effMaxDepth 0 = 10 from rfl]
  simpa using h

/-- Claim C3 witness: under the all-zeros stream the cyclic store's `"[a]"`
template returns itself unresolved after ten draws. -/
theorem cycle_terminates_unresolved_witness :
    ValidRand gZero ∧ generate storeCyc 0 gZero 0 "[a]".toList = ("[a]".toList, 10) :=
  ⟨gZero_valid, cycle_terminates_unresolved gZero 0 gZero_valid⟩

end Sigil
